import Mathlib

/-!
Shallow embedding of the core of the `sifts` document-collection search
library (`src/sifts/core.py`) and proofs about it.

Conventions used throughout:
* Python strings are modelled as `String` / `List Char`; Python whitespace
  splitting and stripping are reimplemented character by character.
* Python regular-expression substitutions used by the code
  (`\band\b`, `\bor\b`, `\b(\w+)\*(?=\s|$|[^\w])`) are reimplemented as
  left-to-right scans with explicit word-boundary checks, which is exactly
  the semantics of `re.sub` for these patterns (non-overlapping matching,
  boundaries computed on the original text).
* JSON metadata objects are modelled structurally (`Obj`), the
  `json.dumps` / `json.loads` round trip being the identity on objects.
* Numbers appearing in metadata filters are modelled as `Int`,
  embedding vectors as `List ℚ` (and as `List ℝ` where cosine similarity
  is computed, since the float32 arithmetic is idealised by real numbers).
-/

/-! ## Python string primitives -/

/-- Characters treated as whitespace by Python `str.strip` / `str.split`. -/
def pyIsSpace (c : Char) : Bool :=
  c = ' ' || c = '\t' || c = '\n' || c = '\r' || c = '\x0b' || c = '\x0c'

/-- Python `str.strip()`: drop leading and trailing whitespace. -/
def pyStrip (s : String) : String :=
  (((s.toList.dropWhile pyIsSpace).reverse.dropWhile pyIsSpace).reverse).asString

def pySplitGo (cur : List Char) : List Char → List (List Char)
  | [] => if cur = [] then [] else [cur.reverse]
  | c :: rest =>
    if pyIsSpace c then
      if cur = [] then pySplitGo [] rest else cur.reverse :: pySplitGo [] rest
    else pySplitGo (c :: cur) rest

/-- Python `str.split()` with no argument: split on whitespace runs,
dropping empty fields. -/
def pySplit (s : String) : List String :=
  (pySplitGo [] s.toList).map List.asString

/-- ASCII lower-casing, Python `str.lower` on the inputs considered here. -/
def lowerChar (c : Char) : Char := c.toLower

def pyLower (s : String) : String := (s.toList.map lowerChar).asString

/-- Word characters for the `\b` and `\w` regex classes (ASCII). -/
def isWordChar (c : Char) : Bool := c.isAlphanum || c = '_'

/-- Word boundary on the left of the scan position. -/
def boundaryBefore : Option Char → Bool
  | none => true
  | some c => !isWordChar c

/-- Word boundary (or end of input) on the right of the scan position. -/
def boundaryAfter : List Char → Bool
  | [] => true
  | c :: _ => !isWordChar c

/-- Scan implementing `re.sub(r"\band\b", repl, s, flags=re.IGNORECASE)`:
replace each whole-word, case-insensitive `and`. `prev` is the character
preceding the scan position in the original text. -/
def subAndGo (repl : List Char) : Option Char → List Char → List Char
  | prev, c1 :: c2 :: c3 :: rest =>
    if lowerChar c1 = 'a' && lowerChar c2 = 'n' && lowerChar c3 = 'd'
        && boundaryBefore prev && boundaryAfter rest then
      repl ++ subAndGo repl (some c3) rest
    else
      c1 :: subAndGo repl (some c1) (c2 :: c3 :: rest)
  | _, l => l

/-- Scan implementing `re.sub(r"\bor\b", repl, s, flags=re.IGNORECASE)`. -/
def subOrGo (repl : List Char) : Option Char → List Char → List Char
  | prev, c1 :: c2 :: rest =>
    if lowerChar c1 = 'o' && lowerChar c2 = 'r'
        && boundaryBefore prev && boundaryAfter rest then
      repl ++ subOrGo repl (some c2) rest
    else
      c1 :: subOrGo repl (some c1) (c2 :: rest)
  | _, l => l

def reSubAnd (repl : String) (s : String) : String :=
  (subAndGo repl.toList none s.toList).asString

def reSubOr (repl : String) (s : String) : String :=
  (subOrGo repl.toList none s.toList).asString

/-- Split a maximal run of word characters off the front of a list. -/
def wordRun : List Char → List Char × List Char
  | [] => ([], [])
  | c :: rest =>
    if isWordChar c then
      let p := wordRun rest
      (c :: p.1, p.2)
    else ([], c :: rest)

/-- Scan implementing `re.sub(r"\b(\w+)\*(?=\s|$|[^\w])", r"\1:*", s)`:
a maximal word run at a word boundary, immediately followed by `*` which is
followed by end of input or a non-word character, is rewritten to
`run:*`. Fuel-driven so that the definition is structurally recursive;
`fuel = length of the input` always suffices since every step consumes at
least one character. -/
def subStarGo : Nat → Option Char → List Char → List Char
  | 0, _, l => l
  | _ + 1, _, [] => []
  | fuel + 1, prev, c :: rest =>
    if boundaryBefore prev && isWordChar c then
      let p := wordRun (c :: rest)
      match p.2 with
      | '*' :: rest2 =>
        if boundaryAfter rest2 then
          p.1 ++ ':' :: '*' :: subStarGo fuel (some '*') rest2
        else
          p.1 ++ '*' :: subStarGo fuel (some '*') rest2
      | _ => p.1 ++ subStarGo fuel (some (p.1.getLastD c)) p.2
    else
      c :: subStarGo fuel (some c) rest

def reSubStar (s : String) : String :=
  (subStarGo s.toList.length none s.toList).asString

/-! ## Query parser (`QueryParser`) -/

/-- Recognised boolean operators of the server dialect (compared after
lower-casing, as in `words[i].lower() in operators`). -/
def pgOperators : List String := ["&", "|", "and", "or"]

def isOpWord (w : String) : Bool := pgOperators.contains (pyLower w)

/-- The token walk of `QueryParser._to_pg`: emit each token; after a
non-operator token, emit `&` when a next token exists and is not an
operator. -/
def joinAmp : List String → List String
  | [] => []
  | w :: rest =>
    if isOpWord w then w :: joinAmp rest
    else
      match rest with
      | [] => [w]
      | w2 :: _ =>
        if !isOpWord w2 then w :: "&" :: joinAmp rest
        else w :: joinAmp rest

/-- `QueryParser._to_sqlite` applied to the (already stripped) query. -/
def QueryParser.toSqlite (q : String) : String :=
  reSubOr "OR" (reSubAnd "AND" q)

/-- `QueryParser._to_pg` applied to the (already stripped) query. -/
def QueryParser.toPg (q : String) : String :=
  let joined := String.intercalate " " (joinAmp (pySplit q))
  reSubStar (reSubOr "|" (reSubAnd "&" joined))

inductive Backend
  | sqlite
  | postgres
  deriving DecidableEq, Repr

/-- `str(QueryParser(query, backend))`: the constructor strips the query,
`__str__` dispatches on the backend. -/
def queryParserStr (b : Backend) (query : String) : String :=
  match b with
  | .sqlite => QueryParser.toSqlite (pyStrip query)
  | .postgres => QueryParser.toPg (pyStrip query)

/-- The server-dialect transformation exactly as the specification words
it: tokenize the stripped input on whitespace; after each token that is
not an operator insert an implicit `&` unless the following token is an
operator or the token is last; reassemble; rewrite whole-word `and`/`or`
to `&`/`|`; rewrite each `word*` whose `*` sits at a word boundary to
`word:*`. -/
def specInsertAmp : List String → List String
  | [] => []
  | [w] => [w]
  | w :: w2 :: rest =>
    if isOpWord w then w :: specInsertAmp (w2 :: rest)
    else if isOpWord w2 then w :: specInsertAmp (w2 :: rest)
    else w :: "&" :: specInsertAmp (w2 :: rest)

def specServerParse (query : String) : String :=
  let toks := pySplit (pyStrip query)
  let assembled := String.intercalate " " (specInsertAmp toks)
  reSubStar (reSubOr "|" (reSubAnd "&" assembled))

/-! ## Collection name validation (`CollectionBase.__init__`) -/

/-- Character class of the source regular expression
`r"[-a-zA-Z0-9_\\+~#=/]+"`. Note that the raw string `\\` is an escaped
backslash inside the character class, so a literal backslash is part of
the accepted class. -/
def nameCharOk (c : Char) : Bool :=
  c = '-' || ('a' ≤ c && c ≤ 'z') || ('A' ≤ c && c ≤ 'Z')
    || ('0' ≤ c && c ≤ '9') || c = '_' || c = '\\' || c = '+' || c = '~'
    || c = '#' || c = '=' || c = '/'

/-- The constructor's validation: `name` must be truthy and fully match
the character class above. -/
def collectionNameOk (s : String) : Bool :=
  !s.isEmpty && s.toList.all nameCharOk

/-- Character class of the specification's regular expression
`^[-A-Za-z0-9_+~#=/]+$` (no backslash). -/
def specNameCharOk (c : Char) : Bool :=
  c = '-' || ('A' ≤ c && c ≤ 'Z') || ('a' ≤ c && c ≤ 'z')
    || ('0' ≤ c && c ≤ '9') || c = '_' || c = '+' || c = '~'
    || c = '#' || c = '=' || c = '/'

def specNameOk (s : String) : Bool :=
  !s.isEmpty && s.toList.all specNameCharOk

/-! ## Data model of the collection engine -/

/-- JSON scalar values appearing in metadata and `where` filters. Numbers
are modelled as integers. -/
inductive Scalar
  | s (v : String)
  | n (v : Int)
  deriving DecidableEq, Repr

/-- A JSON object: ordered association list of key/value pairs. The
`json.dumps`/`json.loads` round trip is the identity on this model. -/
abbrev Obj := List (String × Scalar)

/-- Python `str()` applied to a scalar. -/
def pyStr : Scalar → String
  | .s v => v
  | .n v => toString v

/-- The value attached to an operator key inside a `where` mapping: a
scalar or a list (as used with `$in` / `$nin`). -/
inductive OpArg
  | sc (v : Scalar)
  | lst (vs : List Scalar)
  deriving DecidableEq, Repr

/-- A `where` entry value: a bare scalar, or an operator mapping
(`dict`), kept as an ordered association list since Python dictionaries
iterate in insertion order. -/
inductive WhereVal
  | scalar (v : Scalar)
  | ops (m : List (String × OpArg))
  deriving DecidableEq, Repr

/-- A bound SQL parameter produced by the query builder. A `vec`
parameter stands for the backend encoding of an embedding vector. -/
inductive Param
  | str (s : String)
  | num (v : Int)
  | vec (v : List ℚ)
  deriving DecidableEq, Repr

/-- Errors raised inside the `where` processing: `valueErr` is the
`ValueError("Invalid where condition")`, `typeErr` a `TypeError` from
iterating a non-iterable `$in`/`$nin` argument. -/
inductive BuildErr
  | valueErr
  | typeErr
  deriving DecidableEq, Repr

/-- The error taxonomy visible to callers of the modelled operations. -/
inductive SiftsError
  | invalidArgument (msg : String)
  | typeErr
  | operational
  deriving DecidableEq, Repr

/-! ### SQL text constants (class attributes of the two collections) -/

def PLACEHOLDER : Backend → String
  | .sqlite => "(?)"
  | .postgres => "%s"

def QUERY_SEARCH : Backend → String
  | .sqlite => "SELECT count(*) OVER() AS full_count,\n                doc.id, fts.content, doc.metadata,\n                fts.rank\n                FROM documents_fts fts\n                JOIN documents doc ON doc.id = fts.id\n                WHERE fts.content MATCH (?)\n                "
  | .postgres => "\n    SELECT count(*) OVER() AS full_count,\n    id, content, metadata,\n    ts_rank(tsvector, query) AS rank\n    FROM documents, to_tsquery(\x27simple\x27, %s) query\n    WHERE tsvector @@ query\n    "

def QUERY_VECTOR_SEARCH : Backend → String
  | .sqlite => "SELECT count(*) OVER() AS full_count,\n                doc.id, doc.content, doc.metadata, doc.embedding\n                FROM documents doc\n                WHERE TRUE\n                "
  | .postgres => "\n    SELECT count(*) OVER() AS full_count,\n    id, content, metadata,\n    1 - (embedding <=> %s)\n    FROM documents\n    WHERE TRUE\n    "

def QUERY_GET : Backend → String
  | .sqlite => "SELECT count(*) OVER() AS full_count,\n                doc.id, fts.content, doc.metadata\n                FROM documents_fts fts\n                JOIN documents doc ON doc.id = fts.id\n                WHERE TRUE\n                "
  | .postgres => "\n    SELECT count(*) OVER() AS full_count,\n    id, content, metadata    \n    FROM documents\n    WHERE TRUE\n    "

/-- `QUERY_FILTER_META.format(key, op)`. -/
def QUERY_FILTER_META (b : Backend) (key op : String) : String :=
  match b with
  | .sqlite => "json_extract(doc.metadata, \"$." ++ key ++ "\") " ++ op ++ " (?)"
  | .postgres => "metadata->>\x27" ++ key ++ "\x27 " ++ op ++ " %s"

/-- `QUERY_FILTER_META_FLOAT.format(key, op)` (on SQLite this is the same
template as `QUERY_FILTER_META`). -/
def QUERY_FILTER_META_FLOAT (b : Backend) (key op : String) : String :=
  match b with
  | .sqlite => QUERY_FILTER_META .sqlite key op
  | .postgres => "(metadata->>\x27" ++ key ++ "\x27)::double precision " ++ op ++ " %s"

def QUERY_FILTER_META_IN (b : Backend) (key placeholders : String) : String :=
  match b with
  | .sqlite => "json_extract(doc.metadata, \"$." ++ key ++ "\") IN (" ++ placeholders ++ ")"
  | .postgres => "metadata->>\x27" ++ key ++ "\x27 IN (" ++ placeholders ++ ")"

def QUERY_FILTER_META_NOT_IN (b : Backend) (key placeholders : String) : String :=
  match b with
  | .sqlite => "json_extract(doc.metadata, \"$." ++ key ++ "\") NOT IN (" ++ placeholders ++ ")"
  | .postgres => "metadata->>\x27" ++ key ++ "\x27 NOT IN (" ++ placeholders ++ ")"

def QUERY_ORDER_META (b : Backend) (key : String) : String :=
  match b with
  | .sqlite => "json_extract(doc.metadata, \"$." ++ key ++ "\")"
  | .postgres => "metadata->>\x27" ++ key ++ "\x27"

def QUERY_LIMIT : Backend → String
  | .sqlite => " LIMIT (?)"
  | .postgres => " LIMIT %s"

def QUERY_OFFSET : Backend → String
  | .sqlite => " OFFSET (?)"
  | .postgres => " OFFSET %s"

/-! ### `where` clause construction (body of the `if where:` loop) -/

/-- Operator keys recognised by the engine. -/
def recognizedOps : List String :=
  ["$in", "$nin", "$gt", "$lt", "$gte", "$lte", "$eq"]

/-- Comparison operators and their SQL rendering (the `ops` dict). -/
def compOps : List (String × String) :=
  [("$gt", ">"), ("$lt", "<"), ("$gte", ">="), ("$lte", "<="), ("$eq", "=")]

/-- `",".join("%s" if pg else "?" for _ in values)`. -/
def inPlaceholders (b : Backend) (n : Nat) : String :=
  String.intercalate ","
    (List.replicate n (match b with | .sqlite => "?" | .postgres => "%s"))

/-- Python iteration over an `$in`/`$nin` argument: a list yields its
elements, a string yields its characters, a number is not iterable. -/
def iterOpArg : OpArg → Except BuildErr (List Scalar)
  | .lst vs => .ok vs
  | .sc (.s v) => .ok (v.toList.map (fun c => Scalar.s (String.mk [c])))
  | .sc (.n _) => .error .typeErr

/-- Python `repr` of a scalar, as `str` applied to a list renders its
elements: strings in single quotes, numbers bare. (A string containing a
single quote, which Python would render with double quotes, does not
occur in the modelled inputs.) -/
def pyReprScalar : Scalar → String
  | .s v => "\x27" ++ v ++ "\x27"
  | .n v => toString v

/-- One comparison-operator fragment: numeric arguments go through the
float template with the raw number bound, anything else through the plain
template with its `str()` (for a list argument, Python `str` of the list,
which renders each element by its `repr`). -/
def compFragment (b : Backend) (key op : String) : OpArg → String × List Param
  | .sc (.n v) => (" AND " ++ QUERY_FILTER_META_FLOAT b key op, [Param.num v])
  | .sc (.s v) => (" AND " ++ QUERY_FILTER_META b key op, [Param.str v])
  | .lst vs =>
    (" AND " ++ QUERY_FILTER_META b key op,
     [Param.str ("[" ++ String.intercalate ", " (vs.map pyReprScalar) ++ "]")])

/-- Process a single `where` entry, mirroring the body of
`for key, value in where.items()`. -/
def buildWhereEntry (b : Backend) (key : String) :
    WhereVal → Except BuildErr (String × List Param)
  | .scalar (.n v) =>
    .ok (" AND " ++ QUERY_FILTER_META_FLOAT b key "=", [Param.num v])
  | .scalar (.s v) =>
    .ok (" AND " ++ QUERY_FILTER_META b key "=", [Param.str v])
  | .ops m =>
    if (m.map Prod.fst).all (fun k => !recognizedOps.contains k) then
      .error .valueErr
    else
      let inPart : Except BuildErr (String × List Param) :=
        match (m.lookup "$in") with
        | none => .ok ("", [])
        | some arg =>
          match iterOpArg arg with
          | .error e => .error e
          | .ok vs =>
            .ok (" AND " ++ QUERY_FILTER_META_IN b key (inPlaceholders b vs.length),
                 vs.map (fun v => Param.str (pyStr v)))
      match inPart with
      | .error e => .error e
      | .ok (sqlIn, parIn) =>
        let ninPart : Except BuildErr (String × List Param) :=
          match (m.lookup "$nin") with
          | none => .ok ("", [])
          | some arg =>
            match iterOpArg arg with
            | .error e => .error e
            | .ok vs =>
              .ok (" AND " ++ QUERY_FILTER_META_NOT_IN b key (inPlaceholders b vs.length),
                   vs.map (fun v => Param.str (pyStr v)))
        match ninPart with
        | .error e => .error e
        | .ok (sqlNin, parNin) =>
          let comps := m.foldl
            (fun (acc : String × List Param) kv =>
              match compOps.lookup kv.1 with
              | some op =>
                let frag := compFragment b key op kv.2
                (acc.1 ++ frag.1, acc.2 ++ frag.2)
              | none => acc)
            ("", [])
          .ok (sqlIn ++ sqlNin ++ comps.1, parIn ++ parNin ++ comps.2)

/-- The whole `if where:` loop: entries processed in order, the first
error aborting the query. -/
def buildWhere (b : Backend) : List (String × WhereVal) →
    Except BuildErr (String × List Param)
  | [] => .ok ("", [])
  | (key, v) :: rest =>
    match buildWhereEntry b key v with
    | .error e => .error e
    | .ok (sql, par) =>
      match buildWhere b rest with
      | .error e => .error e
      | .ok (sql2, par2) => .ok (sql ++ sql2, par ++ par2)

/-! ### `order_by` clause construction -/

/-- Python `field.lstrip("+-")`: drop all leading `+`/`-` characters. -/
def lstripPlusMinus (s : String) : String :=
  (s.toList.dropWhile (fun c => c = '+' || c = '-')).asString

/-- Python `str.rstrip(",")`. -/
def rstripComma (s : String) : String :=
  ((s.toList.reverse.dropWhile (fun c => c = ',')).reverse).asString

/-- The `if order_by:` block. An empty list models the falsy values
(`None`, `""`, `[]`); a single string argument is wrapped in a list by
the code before this loop. -/
def buildOrder (b : Backend) (orderBy : List String) : String :=
  if orderBy = [] then ""
  else
    rstripComma (" ORDER BY " ++ String.join (orderBy.map (fun field =>
      QUERY_ORDER_META b (lstripPlusMinus field)
        ++ (if field.startsWith "-" then " DESC NULLS FIRST" else " ASC NULLS LAST")
        ++ ",")))

/-! ## Collection configuration and query pipeline -/

/-- The aspects of a collection handle relevant to the modelled
operations: backend, validated name, FTS flag and optional embedding
function (an opaque map from a batch of texts to a batch of vectors). -/
structure Config where
  backend : Backend
  name : String
  useFts : Bool
  embFn : Option (List String → List (List ℚ))

/-- The three argument checks `CollectionBase.query` performs before
opening a connection, in source order. -/
def queryPrecheck (c : Config) (queryString : String) (orderBy : List String)
    (vectorSearch : Bool) : Option SiftsError :=
  if orderBy ≠ [] ∧ vectorSearch then
    some (.invalidArgument "order_by is not allowed for vector search.")
  else if vectorSearch ∧ c.embFn.isNone then
    some (.invalidArgument "vector search not possible without embedding_function.")
  else if queryString ≠ "" ∧ ¬vectorSearch ∧ ¬c.useFts then
    some (.invalidArgument "Full-text search not enabled for this collection.")
  else none

/-- Assembly of `fts_query` and `params` (the body of the `try:` block up
to `conn.execute`). `vec` is the embedding of the query string, already
computed by the caller when `vectorSearch` is set. -/
def assembleQuery (b : Backend) (name queryString : String) (vec : List ℚ)
    (limit offset : Nat) (whereC : List (String × WhereVal))
    (orderBy : List String) (vectorSearch : Bool) :
    Except BuildErr (String × List Param) :=
  let base : String × List Param :=
    if queryString ≠ "" then
      if vectorSearch then
        if b = .postgres then (QUERY_VECTOR_SEARCH b, [Param.vec vec])
        else (QUERY_VECTOR_SEARCH b, [])
      else (QUERY_SEARCH b, [Param.str (queryParserStr b queryString)])
    else (QUERY_GET b, [])
  let sql1 := base.1 ++ " AND name = \x27" ++ name ++ "\x27"
  match buildWhere b whereC with
  | .error e => .error e
  | .ok (wsql, wpar) =>
    let sql2 := sql1 ++ wsql ++ buildOrder b orderBy
    let params2 := base.2 ++ wpar
    let withVec : String × List Param :=
      if vectorSearch ∧ b = .postgres then
        (sql2 ++ " ORDER BY embedding <=> %s", params2 ++ [Param.vec vec])
      else (sql2, params2)
    let withPage : String × List Param :=
      if vectorSearch ∧ b = .sqlite then
        -- limit and offset are not pushed into the SQL for embedded
        -- vector search; they are applied in memory later
        withVec
      else
        let withLimit :=
          if limit ≠ 0 then
            (withVec.1 ++ QUERY_LIMIT b, withVec.2 ++ [Param.str (toString limit)])
          else withVec
        if offset ≠ 0 then
          (withLimit.1 ++ QUERY_OFFSET b, withLimit.2 ++ [Param.str (toString offset)])
        else withLimit
    .ok withPage

/-- The auxiliary cell carried in the fifth result column: a rank score,
or (embedded vector search) the raw embedding of the row. -/
inductive RankCell
  | score (v : ℚ)
  | emb (v : List ℚ)
  deriving DecidableEq, Repr

/-- A fetched result row: `count(*) OVER()`, id, content, metadata and
the optional fifth column. -/
structure Fetched where
  fullCount : Nat
  id : String
  content : String
  metadata : Option Obj
  rank : Option RankCell
  deriving DecidableEq, Repr

/-- A normalised result entry (the dicts built from `match[1..4]`). The
SQLite branch reads `json.loads(match[3] or "null")` and the PostgreSQL
branch the already-decoded mapping; both yield the stored object, or
`none` for SQL `NULL`. -/
structure View where
  id : String
  content : String
  metadata : Option Obj
  rank : Option RankCell
  deriving DecidableEq, Repr

def materialize (r : Fetched) : View :=
  { id := r.id, content := r.content, metadata := r.metadata, rank := r.rank }

/-- The query envelope made from the fetched rows: `total` is the window
count of the first row, `0` when no row came back. -/
structure QueryResult where
  total : Nat
  results : List View
  deriving DecidableEq, Repr

def envelope (rows : List Fetched) : QueryResult :=
  { total := match rows with | [] => 0 | r :: _ => r.fullCount
    results := rows.map materialize }

/-- `CollectionBase.query`. `exec` is the backend executing the assembled
statement (a connection/operational failure is `Except.error`), and
`orderFn` is the backend's `_order_result` (identity on the base class,
in-memory vector ranking on SQLite). -/
def queryModel (exec : String → List Param → Except Unit (List Fetched))
    (orderFn : List View → List ℚ → Nat → Nat → List View)
    (c : Config) (queryString : String) (limit offset : Nat)
    (whereC : List (String × WhereVal)) (orderBy : List String)
    (vectorSearch : Bool) : Except SiftsError QueryResult :=
  match queryPrecheck c queryString orderBy vectorSearch with
  | some e => .error e
  | none =>
    let vec : List ℚ :=
      if queryString ≠ "" ∧ vectorSearch then
        match c.embFn with
        | some f => (f [queryString]).headD []
        | none => []
      else []
    match assembleQuery c.backend c.name queryString vec limit offset
        whereC orderBy vectorSearch with
    | .error .valueErr => .error (.invalidArgument "Invalid where condition")
    | .error .typeErr => .error .typeErr
    | .ok (sql, params) =>
      match exec sql params with
      | .error _ =>
        -- the `except (sqlite3.OperationalError, psycopg2.OperationalError)`
        -- handler executes a bare `raise`, so the error propagates; the
        -- `return {"total": 0, "results": []}` that follows it is
        -- unreachable
        .error .operational
      | .ok rows =>
        let env := envelope rows
        .ok { total := env.total
              results :=
                if vectorSearch ∧ c.backend = .sqlite then
                  orderFn env.results vec limit offset
                else env.results }

/-- `CollectionBase.get`: delegates to `query` with the empty query
string. -/
def getModel (exec : String → List Param → Except Unit (List Fetched))
    (orderFn : List View → List ℚ → Nat → Nat → List View)
    (c : Config) (limit offset : Nat) (whereC : List (String × WhereVal))
    (orderBy : List String) : Except SiftsError QueryResult :=
  queryModel exec orderFn c "" limit offset whereC orderBy false

/-! ## Denotation of the paginated window query -/

/-- SQL `LIMIT`/`OFFSET` as appended by the builder: the offset rows are
skipped first, then at most `limit` rows are returned; `0` means the
clause was not emitted. -/
def paginate (l : List α) (limit offset : Nat) : List α :=
  let l1 := if offset ≠ 0 then l.drop offset else l
  if limit ≠ 0 then l1.take limit else l1

/-- The rows produced by the generated statement on a result set
`resultSet` (the unpaginated rows satisfying text match, collection name
and `where` filters): every row carries `count(*) OVER ()`, which SQL
evaluates before `LIMIT`/`OFFSET`. -/
def windowRows (resultSet : List View) : List Fetched :=
  resultSet.map (fun v =>
    { fullCount := resultSet.length, id := v.id, content := v.content
      metadata := v.metadata, rank := v.rank })

/-- End-to-end denotation of a paginated query over a known result set:
execute the window query, paginate, build the envelope. -/
def runPagedQuery (resultSet : List View) (limit offset : Nat) : QueryResult :=
  envelope (paginate (windowRows resultSet) limit offset)

/-! ## SQLite storage state and `CollectionSQLite._add` -/

/-- A row of the `documents` table of the embedded backend. -/
structure DocRow where
  id : String
  name : String
  metadata : Option Obj
  content : String
  embedding : Option (List ℚ)
  deriving DecidableEq, Repr

/-- The embedded store: the `documents` table and the `documents_fts`
virtual table (id/content pairs). -/
structure SQLiteStore where
  docs : List DocRow
  fts : List (String × String)
  deriving DecidableEq, Repr

/-- `INSERT INTO documents (id, metadata, name, content) VALUES (…) ON
CONFLICT(id) DO UPDATE SET metadata = excluded.metadata, name =
excluded.name, content = excluded.content`. A fresh insert leaves the
embedding column NULL; a conflicting insert keeps the stored embedding. -/
def upsertDoc (docs : List DocRow) (i : String) (m : Option Obj)
    (nm ct : String) : List DocRow :=
  if docs.any (fun d => d.id = i) then
    docs.map (fun d =>
      if d.id = i then { d with metadata := m, name := nm, content := ct } else d)
  else
    docs ++ [{ id := i, name := nm, metadata := m, content := ct, embedding := none }]

/-- `UPDATE documents SET embedding = ? WHERE id = ?`. -/
def setEmbedding (docs : List DocRow) (i : String) (e : List ℚ) : List DocRow :=
  docs.map (fun d => if d.id = i then { d with embedding := some e } else d)

/-- `CollectionSQLite._add`: batched upsert of the rows, delete-then-insert
rebuild of the FTS rows for the affected ids, then the embedding updates
(the float32 byte encoding/decoding round trip is the identity on the
vector, so `_format_vectors` is modelled as such). -/
def sqliteAdd (c : Config) (st : SQLiteStore) (contents ids : List String)
    (metas : List (Option Obj)) : SQLiteStore :=
  let docs1 := (ids.zip (metas.zip contents)).foldl
    (fun acc r => upsertDoc acc r.1 r.2.1 c.name r.2.2) st.docs
  let fts1 :=
    if c.useFts then
      (st.fts.filter (fun p => !ids.contains p.1)) ++ ids.zip contents
    else st.fts
  let docs2 :=
    match c.embFn with
    | some f => (ids.zip (f contents)).foldl
        (fun acc p => setEmbedding acc p.1 p.2) docs1
    | none => docs1
  { docs := docs2, fts := fts1 }

/-! ## PostgreSQL storage state and `CollectionPostgreSQL._add` -/

/-- A row of the `documents` table of the server backend. -/
structure PgRow where
  id : String
  content : String
  name : String
  metadata : Option Obj
  tsvec : Option String
  embedding : Option (List ℚ)
  deriving DecidableEq, Repr

/-- One `INSERT … ON CONFLICT(id) DO UPDATE` of the server backend.
`tsv` models `to_tsvector('simple', ·)`; `doTs` is set unless the
embedding branch with FTS disabled is taken (that statement neither
writes nor updates the `tsvector` column); `emb` is the formatted
embedding when an embedding function is configured. -/
def pgUpsert (tsv : String → String) (doTs : Bool) (emb : Option (List ℚ))
    (docs : List PgRow) (ct i : String) (m : Option Obj) (nm : String) :
    List PgRow :=
  if docs.any (fun d => d.id = i) then
    docs.map (fun d =>
      if d.id = i then
        { d with content := ct, metadata := m, name := nm
                 tsvec := if doTs then some (tsv ct) else d.tsvec
                 embedding := emb.or d.embedding }
      else d)
  else
    docs ++ [{ id := i, content := ct, name := nm, metadata := m
               tsvec := if doTs then some (tsv ct) else none
               embedding := emb }]

/-- `CollectionPostgreSQL._add`: one batched upsert, whose column set
depends on whether an embedding function is configured and on the FTS
flag; `psycopg2.extras.execute_values` zips the parallel sequences
(truncating to the shortest, as `zip` does). -/
def pgAdd (c : Config) (tsv : String → String) (docs : List PgRow)
    (contents ids : List String) (metas : List (Option Obj)) : List PgRow :=
  match c.embFn with
  | some f =>
    let embeddings := f contents
    (((contents.zip ids).zip (metas.zip embeddings))).foldl
      (fun acc r =>
        pgUpsert tsv c.useFts (some r.2.2) acc r.1.1 r.1.2 r.2.1 c.name) docs
  | none =>
    ((contents.zip ids).zip metas).foldl
      (fun acc r => pgUpsert tsv true none acc r.1.1 r.1.2 r.2 c.name) docs

/-! ## `CollectionBase.add` / `update` normalisation -/

/-- Id normalisation in `add`: a missing list mints one UUID per content;
inside a given list, falsy entries (`None` or the empty string, since
`i or make_id()` tests truthiness) are replaced by fresh UUIDs. The
supply `gen` models `make_id`, indexed by position in the batch. -/
def normalizeIds (gen : Nat → String) (contents : List String) :
    Option (List (Option String)) → List String
  | none => (List.range contents.length).map gen
  | some l => l.mapIdx (fun k i =>
      match i with
      | none => gen k
      | some s => if s = "" then gen k else s)

/-- Metadata normalisation in `add`: `json.dumps(m) if m else None` maps
both `None` and the falsy empty mapping `{}` to SQL `NULL`. -/
def normalizeMetas (contents : List String) :
    Option (List (Option Obj)) → List (Option Obj)
  | none => contents.map (fun _ => none)
  | some l => l.map (fun m =>
      match m with
      | none => none
      | some o => if o = [] then none else some o)

/-- `CollectionBase.add` on the embedded store: normalise ids and
metadata, then run `_add`; returns the ids list as the call does. -/
def addModel (gen : Nat → String) (c : Config) (st : SQLiteStore)
    (contents : List String) (ids : Option (List (Option String)))
    (metas : Option (List (Option Obj))) : List String × SQLiteStore :=
  let ids1 := normalizeIds gen contents ids
  let metas1 := normalizeMetas contents metas
  (ids1, sqliteAdd c st contents ids1 metas1)

/-- `CollectionBase.update`: requires a complete, non-null id list, then
delegates to `add` with the supplied arguments. -/
def updateModel (gen : Nat → String) (c : Config) (st : SQLiteStore)
    (ids : Option (List (Option String))) (contents : List String)
    (metas : Option (List (Option Obj))) :
    Except SiftsError (List String × SQLiteStore) :=
  match ids with
  | none => .error (.invalidArgument "ids must be specified for update")
  | some l =>
    if l.any (fun i => i.isNone) then
      .error (.invalidArgument "ids must be specified for update")
    else .ok (addModel gen c st contents (some l) metas)

/-! ## In-memory vector ranking (`CollectionSQLite._order_result`) -/

/-- Dot product of two real vectors (`numpy` truncates the elementwise
product to the shorter operand, as `zipWith` does; the engine only ever
compares vectors produced by one embedding function, hence of one
length). -/
def dotR (q v : List ℝ) : ℝ := (List.zipWith (· * ·) q v).sum

/-- Cosine similarity as computed by `_order_result`:
`vector @ vectors.T / vectors_norm / vector_norm`, i.e. the dot product
divided by the row norm and then by the query norm. -/
noncomputable def cosineSim (q v : List ℝ) : ℝ :=
  dotR q v / Real.sqrt (dotR v v) / Real.sqrt (dotR q q)

/-- Ordering on ranked rows: descending by similarity. -/
def rankGE (a b : View × ℝ) : Prop := b.2 ≤ a.2

noncomputable instance : DecidableRel rankGE :=
  fun a b => Real.decidableLE b.2 a.2

instance : IsTotal (View × ℝ) rankGE := ⟨fun a b => le_total b.2 a.2⟩

instance : IsTrans (View × ℝ) rankGE := ⟨fun _ _ _ h1 h2 => le_trans h2 h1⟩

/-- `CollectionSQLite._order_result`: each row is paired with its cosine
similarity against the query vector, rows are sorted by similarity
descending (`np.argsort(-similarities)`; ties are in unspecified order
there, modelled by a stable sort here), then the offset slice is taken
before the limit slice. The embedding stored in the popped `rank` cell
arrives as the second component of each input pair. On an empty row list
the function raises: `np.array([], dtype=np.float32)` is one-dimensional,
so `np.linalg.norm(vectors, axis=1)` raises `numpy.AxisError`; the error
value models that exception. -/
noncomputable def orderResult (rows : List (View × List ℝ)) (q : List ℝ)
    (limit offset : Nat) : Except Unit (List (View × ℝ)) :=
  match rows with
  | [] => .error ()
  | r0 :: rest =>
    let ranked := (r0 :: rest).map (fun rv => (rv.1, cosineSim q rv.2))
    let sorted := ranked.insertionSort rankGE
    let afterOffset := if offset ≠ 0 then sorted.drop offset else sorted
    .ok (if limit ≠ 0 then afterOffset.take limit else afterOffset)

/-- Denotation of a whole embedded vector search over a candidate set
(the rows matching collection name and `where` filters, paired with
their stored embeddings): the generated SQL carries no `LIMIT`/`OFFSET`,
so every candidate row is fetched and `n_tot` is read from the window
count of the first row (`0` when there is none); `_order_result` then
ranks and slices in memory — it is called after the `except` block, so
its exception propagates. -/
noncomputable def runEmbeddedVectorQuery (candidates : List (View × List ℝ))
    (q : List ℝ) (limit offset : Nat) : Except Unit (Nat × List (View × ℝ)) :=
  let nTot : Nat := match candidates with | [] => 0 | _ :: _ => candidates.length
  match orderResult candidates q limit offset with
  | .error e => .error e
  | .ok page => .ok (nTot, page)

/-! ## Helper predicates used in the statements -/

/-- A `where` entry value that is a mapping containing some key outside
the recognised operator set. -/
def whereValHasUnrecognizedKey : WhereVal → Bool
  | .scalar _ => false
  | .ops m => m.any (fun p => !recognizedOps.contains p.1)

def whereHasUnrecognizedKey (w : List (String × WhereVal)) : Bool :=
  w.any (fun kv => whereValHasUnrecognizedKey kv.2)

/-- A mapping entry none of whose keys is a recognised operator (the
condition under which the engine raises `ValueError`). -/
def whereValNoRecognized : WhereVal → Bool
  | .scalar _ => false
  | .ops m => (m.map Prod.fst).all (fun k => !recognizedOps.contains k)

/-- An `$in`/`$nin` argument Python can iterate. -/
def opArgIterable : OpArg → Bool
  | .sc (.n _) => false
  | .sc (.s _) => true
  | .lst _ => true

/-- No entry of the mapping would raise a `TypeError` while the `$in` /
`$nin` arguments are expanded. -/
def whereValWellTyped : WhereVal → Bool
  | .scalar _ => true
  | .ops m =>
    (match m.lookup "$in" with | some a => opArgIterable a | none => true)
      && (match m.lookup "$nin" with | some a => opArgIterable a | none => true)

def whereWellTyped (w : List (String × WhereVal)) : Bool :=
  w.all (fun kv => whereValWellTyped kv.2)

/-- Whether an `Except` computation succeeded. -/
def isOkE : Except ε α → Bool
  | .ok _ => true
  | .error _ => false

/-- A sample collection handle: embedded backend, FTS enabled, no
embedding function. -/
def demoConfig : Config :=
  { backend := .sqlite, name := "123", useFts := true, embFn := none }

/-! ## Theorems -/

/-- The index walk of `_to_pg` agrees with the two-token-lookahead
formulation used by the specification. -/
theorem joinAmp_eq_specInsertAmp : ∀ l, joinAmp l = specInsertAmp l
  | [] => rfl
  | [w] => by
    cases h : isOpWord w <;> simp [joinAmp, specInsertAmp, h]
  | w :: w2 :: rest => by
    have h : joinAmp (w :: w2 :: rest) =
        if isOpWord w then w :: joinAmp (w2 :: rest)
        else if !isOpWord w2 then w :: "&" :: joinAmp (w2 :: rest)
        else w :: joinAmp (w2 :: rest) := rfl
    rw [h, joinAmp_eq_specInsertAmp (w2 :: rest)]
    cases h1 : isOpWord w <;> cases h2 : isOpWord w2 <;>
      simp [specInsertAmp, h1, h2]

/-- Claim C7 (confirmed): the server-backend parser strips the input,
tokenizes on whitespace, inserts an implicit `&` after every
non-operator token not followed by an operator and not last, then
rewrites whole-word `and`/`or` to `&`/`|` and `word*` at a word boundary
to `word:*`. -/
theorem server_parser_follows_spec (q : String) :
    queryParserStr .postgres q = specServerParse q := by
  simp [queryParserStr, QueryParser.toPg, specServerParse, joinAmp_eq_specInsertAmp]

theorem parser_example_wildcard_and :
    queryParserStr .postgres "Lor* and ips*" = "Lor:* & ips:*" := by decide

theorem parser_example_sqlite :
    queryParserStr .sqlite " Lor* and ips*\t" = "Lor* AND ips*" := by decide

/-- Claim C4 (counterexample): a name consisting of a single backslash is
outside the specified class `^[-A-Za-z0-9_+~#=/]+$`, yet the
constructor's validation accepts it. -/
theorem backslash_name_accepted :
    collectionNameOk "\\" = true ∧ specNameOk "\\" = false := by decide

/-- The accepted character class is the specified one plus the
backslash. -/
theorem nameCharOk_iff (c : Char) :
    nameCharOk c = true ↔ (specNameCharOk c = true ∨ c = '\\') := by
  simp only [nameCharOk, specNameCharOk, Bool.or_eq_true, decide_eq_true_eq,
    Bool.and_eq_true]
  tauto

/-- Claim C4 (corrected): collection construction succeeds exactly for
non-empty names all of whose characters lie in the class
`-A-Za-z0-9_+~#=/` extended with the backslash (the source pattern
`[-a-zA-Z0-9_\\+~#=/]+` escapes a backslash into the class). -/
theorem collection_name_validation (s : String) :
    collectionNameOk s = true ↔
      s ≠ "" ∧ ∀ c ∈ s.toList, (specNameCharOk c = true ∨ c = '\\') := by
  have he : (s.isEmpty = false) ↔ s ≠ "" := by
    rw [Bool.eq_false_iff, Ne, String.isEmpty_iff]
  simp only [collectionNameOk, Bool.and_eq_true, Bool.not_eq_true',
    List.all_eq_true, he, nameCharOk_iff]

/-- Claim C2 (counterexample): with one matching row, `limit = 1` and
`offset = 1`, the page is empty and the reported `total` is `0`, not the
cardinality `1` of the unpaginated result set. -/
theorem total_not_cardinality_when_offset_past_end :
    (runPagedQuery [{ id := "i", content := "c", metadata := none, rank := none }] 1 1).total
        ≠ ([{ id := "i", content := "c", metadata := none, rank := none }] : List View).length
      ∧ (runPagedQuery [{ id := "i", content := "c", metadata := none, rank := none }] 1 1).results
        = [] := by
  decide

/-- Every row of a paginated slice comes from the underlying list. -/
theorem paginate_subset (l : List α) (limit offset : Nat) :
    ∀ x ∈ paginate l limit offset, x ∈ l := by
  intro x hx
  unfold paginate at hx
  split_ifs at hx <;>
    first
      | exact List.drop_subset _ _ (List.take_subset _ _ hx)
      | exact List.drop_subset _ _ hx
      | exact List.take_subset _ _ hx
      | exact hx

/-- Claim C2 (corrected): on the SQL-paginated paths (every call except
embedded vector search) `total` equals the cardinality of the
unpaginated result set whenever the returned page is non-empty, and is
`0` when the page comes back empty (in particular when `offset` is at
least the number of matching rows); on embedded vector search no
pagination reaches the SQL, so `total` equals the candidate-set
cardinality whenever the call returns — also with the page empty — while
an empty candidate set makes the in-memory ranking raise instead of
returning an envelope. -/
theorem total_semantics_by_pagination_path :
    (∀ (resultSet : List View) (limit offset : Nat),
      ((runPagedQuery resultSet limit offset).results ≠ [] →
        (runPagedQuery resultSet limit offset).total = resultSet.length)
      ∧ ((runPagedQuery resultSet limit offset).results = [] →
        (runPagedQuery resultSet limit offset).total = 0))
    ∧ (∀ (r0 : View × List ℝ) (rest : List (View × List ℝ)) (q : List ℝ)
        (limit offset : Nat),
      ∃ page, runEmbeddedVectorQuery (r0 :: rest) q limit offset
          = .ok ((r0 :: rest).length, page))
    ∧ (∀ (q : List ℝ) (limit offset : Nat),
      runEmbeddedVectorQuery ([] : List (View × List ℝ)) q limit offset
        = .error ()) := by
  refine ⟨?_, ?_, ?_⟩
  swap
  · intro r0 rest q limit offset
    exact ⟨_, rfl⟩
  swap
  · intro q limit offset
    rfl
  intro resultSet limit offset
  have hcount : ∀ x ∈ paginate (windowRows resultSet) limit offset,
      x.fullCount = resultSet.length := by
    intro x hx
    have hx2 := paginate_subset _ limit offset x hx
    unfold windowRows at hx2
    obtain ⟨v, _, hv⟩ := List.mem_map.mp hx2
    rw [← hv]
  cases hpage : paginate (windowRows resultSet) limit offset with
  | nil =>
    constructor
    · intro hne
      exact absurd (by simp [runPagedQuery, envelope, hpage]) hne
    · intro _
      simp [runPagedQuery, envelope, hpage]
  | cons r t =>
    constructor
    · intro _
      have hr : r ∈ paginate (windowRows resultSet) limit offset := by
        rw [hpage]; exact List.mem_cons_self r t
      simp [runPagedQuery, envelope, hpage, hcount r hr]
    · intro hempty
      exact absurd hempty (by simp [runPagedQuery, envelope, hpage])

theorem total_semantics_by_pagination_path_witness :
    (runPagedQuery [{ id := "i", content := "c", metadata := none, rank := none }] 1 0).total
      = ([{ id := "i", content := "c", metadata := none, rank := none }] : List View).length :=
  (total_semantics_by_pagination_path.1
    [{ id := "i", content := "c", metadata := none, rank := none }] 1 0).1 (by decide)

/-- Claim C6 (confirmed): before any backend interaction, `query` fails
with `InvalidArgument` exactly when vector search is requested together
with `order_by`, vector search is requested without an embedding
function, or a non-empty query string is given without vector search on
a collection with FTS disabled; whenever the precheck fires, the call
errors without consulting the backend executor. -/
theorem query_precheck_exactly :
    (∀ (c : Config) (qs : String) (ob : List String) (vs : Bool),
      (queryPrecheck c qs ob vs).isSome = true ↔
        ((ob ≠ [] ∧ vs = true) ∨ (vs = true ∧ c.embFn.isNone = true) ∨
          (qs ≠ "" ∧ vs = false ∧ c.useFts = false)))
    ∧ (∀ exec orderFn (c : Config) (qs : String) (limit offset : Nat)
        (w : List (String × WhereVal)) (ob : List String) (vs : Bool) e,
      queryPrecheck c qs ob vs = some e →
      queryModel exec orderFn c qs limit offset w ob vs = .error e) := by
  constructor
  · intro c qs ob vs
    unfold queryPrecheck
    split_ifs with h1 h2 h3 <;> simp_all
  · intro exec orderFn c qs limit offset w ob vs e h
    unfold queryModel
    rw [h]

theorem query_precheck_exactly_witness :
    queryModel (fun _ _ => .ok []) (fun v _ _ _ => v) demoConfig "" 0 0 [] [] true
      = .error (.invalidArgument
          "vector search not possible without embedding_function.") :=
  query_precheck_exactly.2 (fun _ _ => .ok []) (fun v _ _ _ => v) demoConfig
    "" 0 0 [] [] true _ rfl

/-- Claim C1 (code bug): when the backend raises an operational error
during execution of a `query` (here: an FTS collection queried with a
string the backend rejects), the call propagates the error instead of
returning the empty envelope `{total: 0, results: []}`: the handler
executes a bare `raise` and its `return {"total": 0, "results": []}` is
unreachable. -/
theorem query_operational_error_propagates :
    queryModel (fun _ _ => .error ()) (fun v _ _ _ => v) demoConfig "\"" 0 0 [] [] false
        = .error .operational
      ∧ queryModel (fun _ _ => .error ()) (fun v _ _ _ => v) demoConfig "\"" 0 0 [] [] false
        ≠ .ok { total := 0, results := [] } := by
  constructor
  · rfl
  · intro h
    have h2 : (Except.error SiftsError.operational : Except SiftsError QueryResult)
        = .ok { total := 0, results := [] } := h
    exact Except.noConfusion h2

/-- Claim C9 (confirmed): `get` returns exactly the envelope of
`query("")` with the same arguments, and `update` with a complete
non-null id list returns exactly the result of `add` with those ids,
while a missing id list or a null entry fails with `InvalidArgument`. -/
theorem get_and_update_delegate :
    (∀ exec orderFn (c : Config) (limit offset : Nat)
        (w : List (String × WhereVal)) (ob : List String),
      getModel exec orderFn c limit offset w ob
        = queryModel exec orderFn c "" limit offset w ob false)
    ∧ (∀ gen (c : Config) (st : SQLiteStore) (l : List (Option String))
        (contents : List String) (metas : Option (List (Option Obj))),
      (∀ i ∈ l, i ≠ none) →
      updateModel gen c st (some l) contents metas
        = .ok (addModel gen c st contents (some l) metas))
    ∧ (∀ gen (c : Config) (st : SQLiteStore) (contents : List String)
        (metas : Option (List (Option Obj))),
      updateModel gen c st none contents metas
        = .error (.invalidArgument "ids must be specified for update"))
    ∧ (∀ gen (c : Config) (st : SQLiteStore) (l : List (Option String))
        (contents : List String) (metas : Option (List (Option Obj))),
      none ∈ l →
      updateModel gen c st (some l) contents metas
        = .error (.invalidArgument "ids must be specified for update")) := by
  refine ⟨fun _ _ _ _ _ _ _ => rfl, ?_, fun _ _ _ _ _ => rfl, ?_⟩
  · intro gen c st l contents metas h
    have hany : l.any (fun i => i.isNone) = false := by
      rw [List.any_eq_false]
      intro i hi
      cases i with
      | none => exact absurd rfl (h none hi)
      | some s => simp
    simp [updateModel, hany]
  · intro gen c st l contents metas h
    have hany : l.any (fun i => i.isNone) = true := by
      rw [List.any_eq_true]
      exact ⟨none, h, rfl⟩
    simp [updateModel, hany]

theorem get_and_update_delegate_witness :
    updateModel (fun _ => "u") demoConfig { docs := [], fts := [] }
        (some [some "a"]) ["x"] none
      = .ok (addModel (fun _ => "u") demoConfig { docs := [], fts := [] }
          ["x"] (some [some "a"]) none) :=
  get_and_update_delegate.2.1 (fun _ => "u") demoConfig { docs := [], fts := [] }
    [some "a"] ["x"] none (by simp)

/-- After an upsert of id `i`, the first row found under id `i` carries
the upserted metadata, name and content. -/
theorem upsertDoc_find (docs : List DocRow) (i : String) (m : Option Obj)
    (nm ct : String) :
    ∃ d, (upsertDoc docs i m nm ct).find? (fun d => d.id = i) = some d
      ∧ d.id = i ∧ d.metadata = m ∧ d.name = nm ∧ d.content = ct := by
  unfold upsertDoc
  by_cases h : docs.any (fun d => d.id = i) = true
  · rw [if_pos h]
    induction docs with
    | nil => simp at h
    | cons d0 rest ih =>
      by_cases hd : d0.id = i
      · refine ⟨{ d0 with metadata := m, name := nm, content := ct }, ?_, hd, rfl, rfl, rfl⟩
        simp [hd, List.find?_cons_of_pos]
      · have h2 : rest.any (fun d => d.id = i) = true := by
          simp only [List.any_cons] at h
          rcases Bool.or_eq_true_iff.mp h with h3 | h3
          · exact absurd (of_decide_eq_true h3) hd
          · exact h3
        obtain ⟨d, hf, hrest⟩ := ih h2
        refine ⟨d, ?_, hrest⟩
        simpa [hd] using hf
  · rw [if_neg h]
    have hnone : docs.find? (fun d => d.id = i) = none := by
      rw [List.find?_eq_none]
      intro d hd
      rw [Bool.not_eq_true, List.any_eq_false] at h
      simpa using h d hd
    refine ⟨{ id := i, name := nm, metadata := m, content := ct, embedding := none },
      ?_, rfl, rfl, rfl, rfl⟩
    rw [List.find?_append, hnone]
    simp

/-- `setEmbedding` only rewrites the embedding of the rows with the given
id. -/
theorem find?_setEmbedding (docs : List DocRow) (i : String) (e : List ℚ) :
    (setEmbedding docs i e).find? (fun d => d.id = i)
      = (docs.find? (fun d => d.id = i)).map
          (fun d => { d with embedding := some e }) := by
  induction docs with
  | nil => rfl
  | cons d0 rest ih =>
    by_cases hd : d0.id = i
    · simp [setEmbedding, hd, List.find?_cons_of_pos]
    · simp only [setEmbedding, List.map_cons, if_neg hd]
      rw [List.find?_cons_of_neg _ (by simpa using hd),
        List.find?_cons_of_neg _ (by simpa using hd)]
      simpa [setEmbedding] using ih

/-- The first row stored under the (single) id of a one-document batch
carries exactly the inserted metadata, name and content. -/
theorem sqliteAdd_single_find (c : Config) (st : SQLiteStore)
    (ct x : String) (m : Option Obj) :
    ∃ d, (sqliteAdd c st [ct] [x] [m]).docs.find? (fun d => d.id = x) = some d
      ∧ d.id = x ∧ d.metadata = m ∧ d.name = c.name ∧ d.content = ct := by
  obtain ⟨d, hf, hid, hm, hn, hc⟩ := upsertDoc_find st.docs x m c.name ct
  cases hemb : c.embFn with
  | none =>
    refine ⟨d, ?_, hid, hm, hn, hc⟩
    simp only [sqliteAdd, hemb, List.foldl]
    exact hf
  | some f =>
    cases hv : f [ct] with
    | nil =>
      refine ⟨d, ?_, hid, hm, hn, hc⟩
      simp only [sqliteAdd, hemb, hv, List.zip, List.zipWith, List.foldl]
      exact hf
    | cons v vs =>
      refine ⟨{ d with embedding := some v }, ?_, hid, hm, hn, hc⟩
      simp only [sqliteAdd, hemb, hv, List.zip, List.zipWith, List.foldl]
      rw [find?_setEmbedding, hf]
      rfl

/-- Claim C10 (confirmed): in `add`, an empty metadata mapping is
normalised to SQL `NULL` (stored as null and materialised as null by
`query`/`get`), and an empty-string id is replaced by a freshly minted
UUID instead of being stored as `""`. -/
theorem empty_metadata_and_empty_id_treated_absent :
    (∀ (gen : Nat → String) (c : Config) (st : SQLiteStore) (ct : String),
      addModel gen c st [ct] (some [some ""]) (some [some ([] : Obj)])
        = ([gen 0], sqliteAdd c st [ct] [gen 0] [none]))
    ∧ (∀ (gen : Nat → String) (c : Config) (st : SQLiteStore) (ct : String),
      ∃ d, (sqliteAdd c st [ct] [gen 0] [none]).docs.find? (fun d => d.id = gen 0)
          = some d ∧ d.id = gen 0 ∧ d.metadata = none)
    ∧ (∀ f : Fetched, f.metadata = none → (materialize f).metadata = none) := by
  refine ⟨?_, ?_, ?_⟩
  · intro gen c st ct
    simp [addModel, normalizeIds, normalizeMetas]
  · intro gen c st ct
    obtain ⟨d, hf, hid, hm, _, _⟩ := sqliteAdd_single_find c st ct (gen 0) none
    exact ⟨d, hf, hid, hm⟩
  · intro f h
    simpa [materialize] using h

/-- After `upsertDoc`, a row with the given id exists. -/
theorem upsertDoc_any (docs : List DocRow) (i : String) (m : Option Obj)
    (nm ct : String) :
    (upsertDoc docs i m nm ct).any (fun d => d.id = i) = true := by
  unfold upsertDoc
  by_cases h : docs.any (fun d => d.id = i) = true
  · rw [if_pos h, List.any_eq_true]
    obtain ⟨d, hd, hdi⟩ := List.any_eq_true.mp h
    have hdi2 := of_decide_eq_true hdi
    refine ⟨if d.id = i then { d with metadata := m, name := nm, content := ct } else d,
      List.mem_map_of_mem _ hd, ?_⟩
    rw [if_pos hdi2]
    simp [hdi2]
  · rw [if_neg h, List.any_append]
    simp

/-- After `upsertDoc`, every row with the given id carries the upserted
metadata, name and content. -/
theorem upsertDoc_rows (docs : List DocRow) (i : String) (m : Option Obj)
    (nm ct : String) :
    ∀ d ∈ upsertDoc docs i m nm ct, d.id = i →
      d.metadata = m ∧ d.name = nm ∧ d.content = ct := by
  intro d hd hdi
  unfold upsertDoc at hd
  by_cases h : docs.any (fun d => d.id = i) = true
  · rw [if_pos h] at hd
    obtain ⟨d0, _, hmap⟩ := List.mem_map.mp hd
    by_cases h0 : d0.id = i
    · rw [if_pos h0] at hmap
      rw [← hmap]
      exact ⟨rfl, rfl, rfl⟩
    · rw [if_neg h0] at hmap
      exact absurd (hmap ▸ hdi) h0
  · rw [if_neg h] at hd
    rcases List.mem_append.mp hd with h2 | h2
    · rw [Bool.not_eq_true, List.any_eq_false] at h
      exact absurd (by simpa using hdi) (by simpa using h d h2)
    · rw [List.mem_singleton] at h2
      rw [h2]
      exact ⟨rfl, rfl, rfl⟩

/-- Upserting values that are already stored is the identity. -/
theorem upsertDoc_id_of_stored (docs : List DocRow) (i : String)
    (m : Option Obj) (nm ct : String)
    (h1 : docs.any (fun d => d.id = i) = true)
    (h2 : ∀ d ∈ docs, d.id = i → d.metadata = m ∧ d.name = nm ∧ d.content = ct) :
    upsertDoc docs i m nm ct = docs := by
  unfold upsertDoc
  rw [if_pos h1]
  have : ∀ d ∈ docs,
      (if d.id = i then { d with metadata := m, name := nm, content := ct } else d) = d := by
    intro d hd
    by_cases hdi : d.id = i
    · obtain ⟨hm, hn, hc⟩ := h2 d hd hdi
      rw [if_pos hdi, ← hm, ← hn, ← hc]
    · rw [if_neg hdi]
  rw [List.map_congr_left this]
  simp

/-- `setEmbedding` preserves ids, metadata, names and contents. -/
theorem setEmbedding_fields (docs : List DocRow) (i : String) (e : List ℚ) :
    ∀ d ∈ setEmbedding docs i e, ∃ d0 ∈ docs,
      d.id = d0.id ∧ d.metadata = d0.metadata ∧ d.name = d0.name
        ∧ d.content = d0.content := by
  intro d hd
  obtain ⟨d0, hd0, hmap⟩ := List.mem_map.mp hd
  refine ⟨d0, hd0, ?_⟩
  by_cases h0 : d0.id = i <;> simp [← hmap, h0]

/-- `setEmbedding` keeps a row with the given id present. -/
theorem setEmbedding_any (docs : List DocRow) (i : String) (e : List ℚ)
    (h : docs.any (fun d => d.id = i) = true) :
    (setEmbedding docs i e).any (fun d => d.id = i) = true := by
  obtain ⟨d, hd, hdi⟩ := List.any_eq_true.mp h
  rw [List.any_eq_true]
  have hdi2 := of_decide_eq_true hdi
  refine ⟨if d.id = i then { d with embedding := some e } else d,
    List.mem_map_of_mem _ hd, ?_⟩
  rw [if_pos hdi2]
  simp [hdi2]

/-- After `setEmbedding`, every row with the given id carries the new
embedding. -/
theorem setEmbedding_rows (docs : List DocRow) (i : String) (e : List ℚ) :
    ∀ d ∈ setEmbedding docs i e, d.id = i → d.embedding = some e := by
  intro d hd hdi
  obtain ⟨d0, _, hmap⟩ := List.mem_map.mp hd
  by_cases h0 : d0.id = i
  · rw [if_pos h0] at hmap
    rw [← hmap]
  · rw [if_neg h0] at hmap
    exact absurd (hmap ▸ hdi) h0

/-- Writing an embedding that is already stored is the identity. -/
theorem setEmbedding_id_of_stored (docs : List DocRow) (i : String) (e : List ℚ)
    (h : ∀ d ∈ docs, d.id = i → d.embedding = some e) :
    setEmbedding docs i e = docs := by
  unfold setEmbedding
  have : ∀ d ∈ docs,
      (if d.id = i then { d with embedding := some e } else d) = d := by
    intro d hd
    by_cases hdi : d.id = i
    · rw [if_pos hdi, ← h d hd hdi]
    · rw [if_neg hdi]
  rw [List.map_congr_left this]
  simp

/-- Filtering twice with the same predicate filters once. -/
theorem filter_self_idem (p : α → Bool) (l : List α) :
    (l.filter p).filter p = l.filter p := by
  rw [List.filter_filter]
  induction l with
  | nil => rfl
  | cons a t ih => cases h : p a <;> simp [h, ih]

/-- After `pgUpsert`, a row with the given id exists. -/
theorem pgUpsert_any (tsv : String → String) (doTs : Bool) (emb : Option (List ℚ))
    (docs : List PgRow) (ct i : String) (m : Option Obj) (nm : String) :
    (pgUpsert tsv doTs emb docs ct i m nm).any (fun d => d.id = i) = true := by
  unfold pgUpsert
  by_cases h : docs.any (fun d => d.id = i) = true
  · rw [if_pos h, List.any_eq_true]
    obtain ⟨d, hd, hdi⟩ := List.any_eq_true.mp h
    have hdi2 := of_decide_eq_true hdi
    refine ⟨if d.id = i then
        { d with content := ct, metadata := m, name := nm
                 tsvec := if doTs then some (tsv ct) else d.tsvec
                 embedding := emb.or d.embedding }
      else d, List.mem_map_of_mem _ hd, ?_⟩
    rw [if_pos hdi2]
    simp [hdi2]
  · rw [if_neg h, List.any_append]
    simp

/-- After `pgUpsert`, every row with the given id carries the upserted
values. -/
theorem pgUpsert_rows (tsv : String → String) (doTs : Bool) (emb : Option (List ℚ))
    (docs : List PgRow) (ct i : String) (m : Option Obj) (nm : String) :
    ∀ d ∈ pgUpsert tsv doTs emb docs ct i m nm, d.id = i →
      d.content = ct ∧ d.metadata = m ∧ d.name = nm
        ∧ (doTs = true → d.tsvec = some (tsv ct))
        ∧ (∀ v, emb = some v → d.embedding = some v) := by
  intro d hd hdi
  unfold pgUpsert at hd
  by_cases h : docs.any (fun d => d.id = i) = true
  · rw [if_pos h] at hd
    obtain ⟨d0, _, hmap⟩ := List.mem_map.mp hd
    by_cases h0 : d0.id = i
    · rw [if_pos h0] at hmap
      rw [← hmap]
      refine ⟨rfl, rfl, rfl, ?_, ?_⟩
      · intro hts
        simp [hts]
      · intro v hv
        simp [hv]
    · rw [if_neg h0] at hmap
      exact absurd (hmap ▸ hdi) h0
  · rw [if_neg h] at hd
    rcases List.mem_append.mp hd with h2 | h2
    · rw [Bool.not_eq_true, List.any_eq_false] at h
      exact absurd (by simpa using hdi) (by simpa using h d h2)
    · rw [List.mem_singleton] at h2
      rw [h2]
      refine ⟨rfl, rfl, rfl, ?_, ?_⟩
      · intro hts
        simp [hts]
      · intro v hv
        simp [hv]

/-- A `pgUpsert` of values that are already stored is the identity. -/
theorem pgUpsert_id_of_stored (tsv : String → String) (doTs : Bool)
    (emb : Option (List ℚ)) (docs : List PgRow) (ct i : String)
    (m : Option Obj) (nm : String)
    (h1 : docs.any (fun d => d.id = i) = true)
    (h2 : ∀ d ∈ docs, d.id = i →
      d.content = ct ∧ d.metadata = m ∧ d.name = nm
        ∧ (doTs = true → d.tsvec = some (tsv ct))
        ∧ (∀ v, emb = some v → d.embedding = some v)) :
    pgUpsert tsv doTs emb docs ct i m nm = docs := by
  unfold pgUpsert
  rw [if_pos h1]
  have : ∀ d ∈ docs,
      (if d.id = i then
        { d with content := ct, metadata := m, name := nm
                 tsvec := if doTs then some (tsv ct) else d.tsvec
                 embedding := emb.or d.embedding }
      else d) = d := by
    intro d hd
    by_cases hdi : d.id = i
    · obtain ⟨hc, hm, hn, hts, he⟩ := h2 d hd hdi
      rw [if_pos hdi]
      cases d
      cases doTs with
      | false =>
        cases emb with
        | none => simp_all
        | some v => simp_all
      | true =>
        cases emb with
        | none => simp_all
        | some v => simp_all
    · rw [if_neg hdi]
  rw [List.map_congr_left this]
  simp

/-- The delete-then-insert FTS rebuild is idempotent for a one-row
batch. -/
theorem fts_rebuild_idem (x ct : String) (fts0 : List (String × String)) :
    ((fts0.filter (fun p => !([x].contains p.1)) ++ [(x, ct)]).filter
        (fun p => !([x].contains p.1))) ++ [(x, ct)]
      = fts0.filter (fun p => !([x].contains p.1)) ++ [(x, ct)] := by
  rw [List.filter_append, filter_self_idem]
  have h1 : [(x, ct)].filter (fun p => !([x].contains p.1)) = ([] : List (String × String)) := by
    simp
  rw [h1, List.append_nil]

/-- `CollectionSQLite._add` of a one-document batch is idempotent. -/
theorem sqliteAdd_single_idem (c : Config) (st : SQLiteStore) (ct x : String)
    (m : Option Obj) :
    sqliteAdd c (sqliteAdd c st [ct] [x] [m]) [ct] [x] [m]
      = sqliteAdd c st [ct] [x] [m] := by
  have hU := upsertDoc_any st.docs x m c.name ct
  have hR := upsertDoc_rows st.docs x m c.name ct
  cases hemb : c.embFn with
  | none =>
    simp only [sqliteAdd, hemb, List.zip_cons_cons, List.zip_nil_right,
      List.foldl_cons, List.foldl_nil, SQLiteStore.mk.injEq]
    constructor
    · exact upsertDoc_id_of_stored _ x m c.name ct hU hR
    · cases huf : c.useFts with
      | true =>
        simp only [huf, if_true]
        exact fts_rebuild_idem x ct st.fts
      | false => simp [huf]
  | some f =>
    cases hv : f [ct] with
    | nil =>
      simp only [sqliteAdd, hemb, hv, List.zip_cons_cons, List.zip_nil_right,
        List.foldl_cons, List.foldl_nil, SQLiteStore.mk.injEq]
      constructor
      · exact upsertDoc_id_of_stored _ x m c.name ct hU hR
      · cases huf : c.useFts with
        | true =>
          simp only [huf, if_true]
          exact fts_rebuild_idem x ct st.fts
        | false => simp [huf]
    | cons v vs =>
      have hR2 : ∀ d ∈ setEmbedding (upsertDoc st.docs x m c.name ct) x v,
          d.id = x → d.metadata = m ∧ d.name = c.name ∧ d.content = ct := by
        intro d hd hdi
        obtain ⟨d0, hd0, hid, hm, hn, hc⟩ := setEmbedding_fields _ x v d hd
        obtain ⟨hm0, hn0, hc0⟩ := hR d0 hd0 (hid ▸ hdi)
        exact ⟨hm.trans hm0, hn.trans hn0, hc.trans hc0⟩
      have hup : upsertDoc (setEmbedding (upsertDoc st.docs x m c.name ct) x v)
          x m c.name ct = setEmbedding (upsertDoc st.docs x m c.name ct) x v :=
        upsertDoc_id_of_stored _ x m c.name ct (setEmbedding_any _ x v hU) hR2
      simp only [sqliteAdd, hemb, hv, List.zip_cons_cons, List.zip_nil_right,
        List.zip_nil_left, List.foldl_cons, List.foldl_nil, SQLiteStore.mk.injEq]
      constructor
      · rw [hup]
        exact setEmbedding_id_of_stored _ x v (setEmbedding_rows _ x v)
      · cases huf : c.useFts with
        | true =>
          simp only [huf, if_true]
          exact fts_rebuild_idem x ct st.fts
        | false => simp [huf]

/-- `CollectionPostgreSQL._add` of a one-document batch is idempotent. -/
theorem pgAdd_single_idem (c : Config) (tsv : String → String)
    (docs : List PgRow) (ct x : String) (m : Option Obj) :
    pgAdd c tsv (pgAdd c tsv docs [ct] [x] [m]) [ct] [x] [m]
      = pgAdd c tsv docs [ct] [x] [m] := by
  cases hemb : c.embFn with
  | none =>
    simp only [pgAdd, hemb, List.zip_cons_cons, List.zip_nil_right,
      List.foldl_cons, List.foldl_nil]
    exact pgUpsert_id_of_stored tsv true none _ ct x m c.name
      (pgUpsert_any tsv true none docs ct x m c.name)
      (pgUpsert_rows tsv true none docs ct x m c.name)
  | some f =>
    cases hv : f [ct] with
    | nil =>
      simp [pgAdd, hemb, hv]
    | cons v vs =>
      simp only [pgAdd, hemb, hv, List.zip_cons_cons, List.zip_nil_right,
        List.zip_nil_left, List.foldl_cons, List.foldl_nil]
      exact pgUpsert_id_of_stored tsv c.useFts (some v) _ ct x m c.name
        (pgUpsert_any tsv c.useFts (some v) docs ct x m c.name)
        (pgUpsert_rows tsv c.useFts (some v) docs ct x m c.name)

/-- Claim C5 (confirmed): for any id `x` and content `c`, running
`add(ids=[x], contents=[c])` twice leaves the same stored state (row
content, name, metadata, embedding and lexical index) as running it once,
on both backends; and an `add` with an existing id overwrites the stored
row rather than raising an error. -/
theorem upsert_idempotent_and_overwrites :
    (∀ (c : Config) (st : SQLiteStore) (ct x : String) (m : Option Obj),
      sqliteAdd c (sqliteAdd c st [ct] [x] [m]) [ct] [x] [m]
        = sqliteAdd c st [ct] [x] [m])
    ∧ (∀ (c : Config) (tsv : String → String) (docs : List PgRow)
        (ct x : String) (m : Option Obj),
      pgAdd c tsv (pgAdd c tsv docs [ct] [x] [m]) [ct] [x] [m]
        = pgAdd c tsv docs [ct] [x] [m])
    ∧ (∀ (c : Config) (st : SQLiteStore) (ct ct2 x : String) (m m2 : Option Obj),
      ∃ d, (sqliteAdd c (sqliteAdd c st [ct] [x] [m]) [ct2] [x] [m2]).docs.find?
            (fun d => d.id = x) = some d
        ∧ d.metadata = m2 ∧ d.name = c.name ∧ d.content = ct2) := by
  refine ⟨sqliteAdd_single_idem, pgAdd_single_idem, ?_⟩
  intro c st ct ct2 x m m2
  obtain ⟨d, hf, _, hm, hn, hc⟩ :=
    sqliteAdd_single_find c (sqliteAdd c st [ct] [x] [m]) ct2 x m2
  exact ⟨d, hf, hm, hn, hc⟩

/-- Claim C3 (counterexample): a `where` mapping containing the
unrecognised key `bogus` alongside the recognised `$eq` is accepted by
the `where` processing instead of failing. -/
theorem where_unrecognized_alongside_recognized_accepted :
    whereHasUnrecognizedKey
        [("k1", WhereVal.ops [("$eq", .sc (.s "a")), ("bogus", .sc (.s "b"))])] = true
      ∧ isOkE (buildWhere .sqlite
          [("k1", WhereVal.ops [("$eq", .sc (.s "a")), ("bogus", .sc (.s "b"))])]) = true := by
  decide

/-- An entry whose mapping has no recognised operator key raises the
`ValueError`. -/
theorem buildWhereEntry_valueErr_of (b : Backend) (key : String) (v : WhereVal)
    (h : whereValNoRecognized v = true) :
    buildWhereEntry b key v = .error .valueErr := by
  cases v with
  | scalar s => simp [whereValNoRecognized] at h
  | ops m =>
    have h2 : ((m.map Prod.fst).all (fun k => !recognizedOps.contains k)) = true := h
    simp only [buildWhereEntry]
    rw [if_pos h2]

/-- A well-typed entry with some recognised operator key succeeds. -/
theorem buildWhereEntry_ok_of (b : Backend) (key : String) (v : WhereVal)
    (hw : whereValWellTyped v = true) (hno : whereValNoRecognized v = false) :
    ∃ r, buildWhereEntry b key v = .ok r := by
  cases v with
  | scalar s => cases s <;> exact ⟨_, rfl⟩
  | ops m =>
    have hno' : ((m.map Prod.fst).all (fun k => !recognizedOps.contains k)) = false := hno
    simp only [whereValWellTyped, Bool.and_eq_true] at hw
    obtain ⟨h1, h2⟩ := hw
    simp only [buildWhereEntry]
    rw [if_neg (fun hc => Bool.false_ne_true (hno' ▸ hc))]
    cases hlin : m.lookup "$in" with
    | none =>
      cases hlnin : m.lookup "$nin" with
      | none =>
        simp only [hlin, hlnin]
        exact ⟨_, rfl⟩
      | some a =>
        rw [hlnin] at h2
        obtain ⟨vs2, hvs2⟩ : ∃ vs2, iterOpArg a = .ok vs2 := by
          cases a with
          | lst vs2 => exact ⟨vs2, rfl⟩
          | sc s =>
            cases s with
            | s v => exact ⟨_, rfl⟩
            | n v => simp [opArgIterable] at h2
        simp only [hlin, hlnin, hvs2]
        exact ⟨_, rfl⟩
    | some a =>
      rw [hlin] at h1
      obtain ⟨vs, hvs⟩ : ∃ vs, iterOpArg a = .ok vs := by
        cases a with
        | lst vs => exact ⟨vs, rfl⟩
        | sc s =>
          cases s with
          | s v => exact ⟨_, rfl⟩
          | n v => simp [opArgIterable] at h1
      cases hlnin : m.lookup "$nin" with
      | none =>
        simp only [hlin, hlnin, hvs]
        exact ⟨_, rfl⟩
      | some a2 =>
        rw [hlnin] at h2
        obtain ⟨vs2, hvs2⟩ : ∃ vs2, iterOpArg a2 = .ok vs2 := by
          cases a2 with
          | lst vs2 => exact ⟨vs2, rfl⟩
          | sc s =>
            cases s with
            | s v => exact ⟨_, rfl⟩
            | n v => simp [opArgIterable] at h2
        simp only [hlin, hlnin, hvs, hvs2]
        exact ⟨_, rfl⟩

/-- Claim C3 (corrected): over a `where` whose `$in`/`$nin` arguments
are iterable, the processing raises the `ValueError` exactly when some
entry is a mapping none of whose keys is a recognised operator;
unrecognised keys appearing alongside a recognised operator are silently
ignored. -/
theorem where_value_error_iff (b : Backend) :
    ∀ w : List (String × WhereVal), whereWellTyped w = true →
      (buildWhere b w = .error .valueErr ↔
        w.any (fun kv => whereValNoRecognized kv.2) = true)
  | [] => by
    intro _
    simp [buildWhere]
  | (key, v) :: rest => by
    intro h
    simp only [whereWellTyped, List.all_cons, Bool.and_eq_true] at h
    obtain ⟨h1, h2⟩ := h
    by_cases hno : whereValNoRecognized v = true
    · simp [buildWhere, buildWhereEntry_valueErr_of b key v hno, hno]
    · have hno' : whereValNoRecognized v = false := by
        simpa using hno
      obtain ⟨r, hr⟩ := buildWhereEntry_ok_of b key v h1 hno'
      obtain ⟨sqlr, parr⟩ := r
      have ih := where_value_error_iff b rest h2
      rw [List.any_cons]
      simp only [buildWhere, hr, hno', Bool.false_or]
      cases hrest : buildWhere b rest with
      | error e =>
        rw [hrest] at ih
        simpa using ih
      | ok r2 =>
        rw [hrest] at ih
        obtain ⟨sql2, par2⟩ := r2
        refine ⟨fun he => ?_, fun ha => ?_⟩
        · exact absurd he (by simp)
        · exact absurd (ih.mpr ha) (by simp)

theorem where_value_error_iff_witness :
    buildWhere .sqlite [("k1", WhereVal.ops [("in", .sc (.s "a"))])]
      = .error .valueErr :=
  (where_value_error_iff .sqlite [("k1", WhereVal.ops [("in", .sc (.s "a"))])]
    (by decide)).mpr (by decide)

/-- Claim C8 (counterexample): an embedded vector search whose candidate
set is empty does not return a (vacuously sorted) empty page: the
in-memory ranking raises — `np.linalg.norm(vectors, axis=1)` on the
empty one-dimensional array raises `numpy.AxisError` — so the call
errors instead of materialising ranked results. -/
theorem embedded_vector_search_empty_crashes :
    orderResult ([] : List (View × List ℝ)) [(1 : ℝ)] 1 0 = .error ()
      ∧ runEmbeddedVectorQuery ([] : List (View × List ℝ)) [(1 : ℝ)] 1 0
        = .error () :=
  ⟨rfl, rfl⟩

/-- Claim C8 (corrected, with the float32 arithmetic idealised by real
numbers): for embedded vector search no `LIMIT`/`OFFSET` reaches the SQL
(the assembled statement and parameters are those of the unpaginated
query); on a non-empty candidate set the rank is the cosine similarity
`q·v / (‖q‖‖v‖)`, the returned rows are a permutation of the candidate
rows paired with their similarities, sorted descending, with the offset
slice taken before the limit slice; on an empty candidate set the
in-memory ranking raises instead of returning. -/
theorem embedded_vector_search_ranking_nonempty :
    (∀ (name qs : String) (vec : List ℚ) (limit offset : Nat)
        (w : List (String × WhereVal)) (ob : List String),
      assembleQuery .sqlite name qs vec limit offset w ob true
        = assembleQuery .sqlite name qs vec 0 0 w ob true)
    ∧ (∀ q v : List ℝ, cosineSim q v
        = dotR q v / (Real.sqrt (dotR q q) * Real.sqrt (dotR v v)))
    ∧ (∀ (r0 : View × List ℝ) (rest : List (View × List ℝ)) (q : List ℝ),
        ∃ page, orderResult (r0 :: rest) q 0 0 = .ok page
          ∧ page.Perm ((r0 :: rest).map (fun rv => (rv.1, cosineSim q rv.2)))
          ∧ List.Sorted rankGE page)
    ∧ (∀ (r0 : View × List ℝ) (rest : List (View × List ℝ)) (q : List ℝ)
        (limit offset : Nat),
        orderResult (r0 :: rest) q limit offset =
          Except.map
            (fun full => if limit ≠ 0 then (full.drop offset).take limit
              else full.drop offset)
            (orderResult (r0 :: rest) q 0 0))
    ∧ (∀ (q : List ℝ) (limit offset : Nat),
        orderResult ([] : List (View × List ℝ)) q limit offset = .error ()) := by
  refine ⟨?_, ?_, ?_, ?_, ?_⟩
  · intro name qs vec limit offset w ob
    unfold assembleQuery
    cases h : buildWhere .sqlite w <;> simp
  · intro q v
    rw [cosineSim, div_div, mul_comm]
  · intro r0 rest q
    refine ⟨((r0 :: rest).map (fun rv => (rv.1, cosineSim q rv.2))).insertionSort rankGE,
      by simp [orderResult], ?_, ?_⟩
    · exact List.perm_insertionSort rankGE _
    · exact List.sorted_insertionSort rankGE _
  · intro r0 rest q limit offset
    by_cases ho : offset = 0 <;> by_cases hl : limit = 0 <;>
      simp [orderResult, Except.map, ho, hl, List.drop_zero]
  · intro q limit offset
    rfl

theorem collection_name_validation_witness :
    collectionNameOk "abc" = true :=
  (collection_name_validation "abc").mpr ⟨by decide, by decide⟩

theorem empty_metadata_and_empty_id_treated_absent_witness :
    addModel (fun _ => "u") demoConfig { docs := [], fts := [] } ["c"]
        (some [some ""]) (some [some ([] : Obj)])
      = (["u"], sqliteAdd demoConfig { docs := [], fts := [] } ["c"] ["u"] [none])
    ∧ (materialize ⟨0, "i", "c", none, none⟩).metadata = none :=
  ⟨empty_metadata_and_empty_id_treated_absent.1 (fun _ => "u") demoConfig
      { docs := [], fts := [] } "c",
    empty_metadata_and_empty_id_treated_absent.2.2 ⟨0, "i", "c", none, none⟩ rfl⟩
